import Mathlib

/-!
Verification of the execution & cost accounting engine
(`zipline/finance/commission.py` and `zipline/finance/slippage.py`).

Prices, volumes and dollar amounts are embedded as rationals; machine
floats in the source are treated as exact arithmetic.  A missing (NaN)
close price is embedded as `Option.none`.  Order and transaction records
are external collaborators of this engine (they are read, and advanced
by the caller, but not defined, in the two source files); their fields
are modelled from the spec's data model section.
-/

namespace Zipline

/-- Modelled from the spec: the order record (external collaborator).
The engine reads `asset`, `amount` (requested, signed), `filled`
(cumulative, same sign as direction), `commission` (cumulative dollars),
the optional `limit` price and the `triggered` flag.  The `stop` price is
only consumed by the external trigger-evaluation collaborator and is not
modelled. -/
structure Order where
  asset : ℕ
  amount : ℚ
  filled : ℚ
  commission : ℚ
  limit : Option ℚ
  triggered : Bool
  deriving DecidableEq

/-- Modelled from the spec: `direction` is the sign (±1) of the desired
trade, `math.copysign(1, amount)` in the collaborator. -/
def Order.direction (o : Order) : ℚ :=
  if o.amount < 0 then -1 else 1

/-- Modelled from the spec: `open amount = requested − filled`. -/
def Order.openAmount (o : Order) : ℚ :=
  o.amount - o.filled

/-- Modelled from the spec: the immutable transaction record produced by
the transaction factory — asset, timestamp, signed amount, price. -/
structure Transaction where
  asset : ℕ
  dt : ℕ
  amount : ℚ
  price : ℚ
  deriving DecidableEq

/-- Embeds `PerUnit._calculate` (commission.py lines 151-184).
`minTradeCost` is `Option ℚ` because `self.min_trade_cost` may be
`None`; the source evaluates `self.min_trade_cost or 0`, which maps
`None` (and `0`) to `0`. -/
def PerUnit.calculate (minTradeCost : Option ℚ) (costPerUnit exchangeFee : ℚ)
    (o : Order) (t : Transaction) : ℚ :=
  let additionalCommission := |t.amount * costPerUnit|
  let minTC := minTradeCost.getD 0
  if o.commission = 0 then
    max minTC (additionalCommission + exchangeFee)
  else
    let perUnitTotal := o.filled * costPerUnit + additionalCommission + exchangeFee
    if perUnitTotal < minTC then 0
    else perUnitTotal - o.commission

/-- Embeds `PerShare.calculate` (commission.py lines 217-220): per-unit
commission with the equity cost and no exchange fee. -/
def PerShare.calculate (costPerShare : ℚ) (minTradeCost : Option ℚ)
    (o : Order) (t : Transaction) : ℚ :=
  PerUnit.calculate minTradeCost costPerShare 0 o t

/-- Embeds `PerContract.calculate` (commission.py lines 279-304) after
the scalar-or-dictionary cost and fee parameters have been resolved to
the numbers used for this order's root symbol (the resolution itself
only selects which constants are passed to `PerUnit._calculate`). -/
def PerContract.calculate (costPerContract exchangeFee : ℚ)
    (minTradeCost : Option ℚ) (o : Order) (t : Transaction) : ℚ :=
  PerUnit.calculate minTradeCost costPerContract exchangeFee o t

/-- Embeds `PerEquityTrade.calculate` (commission.py lines 331-343). -/
def PerEquityTrade.calculate (cost : ℚ) (o : Order) (t : Transaction) : ℚ :=
  if o.commission = 0 then cost else 0

/-- Embeds `PerFutureTrade` (commission.py lines 359-362): `PerContract`
with zero per-contract cost, the flat trade cost as the exchange fee,
and a zero minimum. -/
def PerFutureTrade.calculate (costPerTrade : ℚ) (o : Order) (t : Transaction) : ℚ :=
  PerContract.calculate 0 costPerTrade (some 0) o t

/-- Embeds `PerDollarBase.calculate` (commission.py lines 392-397). -/
def PerDollarBase.calculate (costPerDollar : ℚ) (o : Order) (t : Transaction) : ℚ :=
  let costPerShare := t.price * costPerDollar
  |t.amount| * costPerShare

/-- Modelled from the spec: the caller-side protocol around
`calculate` — the ledger calls the model once per transaction, in
transaction order, then advances the order's cumulative `filled` by the
transaction's amount and its cumulative `commission` by the returned
charge before the next call.  Returns the sum of all returned charges. -/
def runCommissions (cm : Order → Transaction → ℚ) :
    Order → List Transaction → ℚ
  | _, [] => 0
  | o, t :: ts =>
    let charge := cm o t
    charge + runCommissions cm
      { o with filled := o.filled + t.amount, commission := o.commission + charge } ts

/-- Embeds `math.copysign(x, y)`: the magnitude of `x` with the sign of
`y` (Python gives positive for `y = 0`, matching `¬ y < 0` here). -/
def copysign (x y : ℚ) : ℚ :=
  if y < 0 then -|x| else |x|

/-- Modelled from the spec: the market snapshot provider for one bar —
`current(asset, field)` for the fields the engine reads, plus the bar
timestamp.  A missing (NaN) close price is `none`. -/
structure BarData where
  volume : ℕ → ℚ
  close : ℕ → Option ℚ
  high : ℕ → ℚ
  low : ℕ → ℚ
  dt : ℕ

/-- Result of one `process_order` call.  `exceeded` is the
`LiquidityExceeded` exception, `bareNone` is the bare `return` (a single
`None`, not a pair) taken on a NaN close price inside
`VolumeSlippage.process_order`, and `pair x` is a returned 2-tuple:
`pair none` is `(None, None)` (no fill), `pair (some (p, v))` is a fill
at price `p` for signed volume `v`. -/
inductive ProcResult
  | exceeded : ProcResult
  | bareNone : ProcResult
  | pair : Option (ℚ × ℚ) → ProcResult
  deriving DecidableEq

/-- Embeds `fill_price_worse_than_limit_price` (slippage.py lines
115-145).  The guard `if order.limit:` is Python truthiness: it is
skipped both when the limit is `None` and when it is `0`. -/
def fill_price_worse_than_limit_price (fillPrice : ℚ) (o : Order) : Bool :=
  match o.limit with
  | none => false
  | some l =>
    if l = 0 then false
    else if (o.direction > 0 ∧ l < fillPrice) ∨ (o.direction < 0 ∧ fillPrice < l) then
      true
    else false

/-- Embeds `VolumeSlippage.process_order` (slippage.py lines 272-319),
given the per-bar counter `vfb` (`self.volume_for_bar`).  `int(...)` is
embedded as `Int.floor`; its argument is nonnegative whenever the branch
is reached, so truncation and floor agree. -/
def VolumeSlippage.processOrder (volumeLimit priceImpact : ℚ)
    (d : BarData) (vfb : ℚ) (o : Order) : ProcResult :=
  let volume := d.volume o.asset
  let maxVolume := volumeLimit * volume
  let remainingVolume := maxVolume - vfb
  if remainingVolume < 1 then .exceeded
  else
    let curVolume : ℤ := ⌊min remainingVolume |o.openAmount|⌋
    if curVolume < 1 then .pair none
    else
      let totalVolume := vfb + (curVolume : ℚ)
      let volumeShare := min (totalVolume / volume) volumeLimit
      match d.close o.asset with
      | none => .bareNone
      | some price =>
        let simulatedImpact := volumeShare ^ 2 * copysign priceImpact o.direction * price
        let impactedPrice := price + simulatedImpact
        if fill_price_worse_than_limit_price impactedPrice o then .pair none
        else .pair (some (impactedPrice, copysign (curVolume : ℚ) o.direction))

/-- Embeds `FixedSlippageBase.process_order` (slippage.py lines
345-351), with `price` the value of `data.current(order.asset, "close")`
for this bar. -/
def FixedSlippageBase.processOrder (spread : ℚ) (price : ℚ) (o : Order) : ℚ × ℚ :=
  (price + spread / 2 * o.direction, o.amount)

/-- Embeds `FuturesMarketImpact.process_order` (slippage.py lines
427-457).  `eta` is the coefficient `ROOT_SYMBOL_TO_ETA[root_symbol]`
for this order's root symbol; `meanVolume` and `volatility` are the pair
returned by `self._get_window_data(data, order.asset, 20)`; `sqrtFn`
stands for `math.sqrt`, which has no exact rational counterpart. -/
def FuturesMarketImpact.processOrder (volumeLimit eta meanVolume volatility : ℚ)
    (sqrtFn : ℚ → ℚ) (d : BarData) (o : Order) : ProcResult :=
  if o.openAmount = 0 then .pair none
  else
    let volume := d.volume o.asset
    if volume = 0 then .pair none
    else
      let txnVolume := min (volume * volumeLimit) |o.openAmount|
      let psi := txnVolume / meanVolume
      let marketImpact := eta * volatility * sqrtFn psi
      let price := (d.high o.asset + d.low o.asset) / 2
      let simulatedImpact := price * marketImpact / 10000
      let impactedPrice := price + copysign simulatedImpact o.direction
      if fill_price_worse_than_limit_price impactedPrice o then .pair none
      else .pair (some (impactedPrice, copysign txnVolume o.direction))

/-- Modelled from the spec: the transaction factory
`create_transaction(order, dt, price, amount)` — an external
collaborator producing the immutable fill record. -/
def createTransaction (o : Order) (dtv : ℕ) (price amount : ℚ) : Transaction :=
  ⟨o.asset, dtv, amount, price⟩

/-- Outcome of draining the generator returned by
`SlippageModel.simulate`: the yielded `(order, transaction)` pairs, the
order records after the loop (orders are mutated in place by
`check_triggers`; orders after a `LiquidityExceeded` break keep their
old state), the final value of the per-bar counter
`self._volume_for_bar`, and whether the loop exited through the
`LiquidityExceeded` break. -/
structure SimOutput where
  pairs : List (Order × Transaction)
  orders : List Order
  vfb : ℚ
  broke : Bool
  deriving DecidableEq

/-- Embeds the order loop of `SlippageModel.simulate` (slippage.py lines
200-227).  `proc` is `self.process_order` already applied to the bar
data, taking the current counter value; `ct` is the external
`order.check_triggers(price, dt)` collaborator already applied to the
bar's price and timestamp; `none` is the `TypeError` raised when a bare
`None` from `process_order` is unpacked into two variables. -/
def simLoop (proc : ℚ → Order → ProcResult) (ct : Order → Order) (dtv : ℕ) :
    List Order → ℚ → Option SimOutput
  | [], v => some ⟨[], [], v, false⟩
  | o :: os, v =>
    if o.openAmount = 0 then
      (simLoop proc ct dtv os v).map fun r => ⟨r.pairs, o :: r.orders, r.vfb, r.broke⟩
    else
      let o1 := ct o
      if o1.triggered = false then
        (simLoop proc ct dtv os v).map fun r => ⟨r.pairs, o1 :: r.orders, r.vfb, r.broke⟩
      else
        match proc v o1 with
        | .exceeded => some ⟨[], o1 :: os, v, true⟩
        | .bareNone => none
        | .pair none =>
          (simLoop proc ct dtv os v).map fun r => ⟨r.pairs, o1 :: r.orders, r.vfb, r.broke⟩
        | .pair (some pv) =>
          let txn := createTransaction o1 dtv pv.1 pv.2
          (simLoop proc ct dtv os (v + |txn.amount|)).map fun r =>
            ⟨(o1, txn) :: r.pairs, o1 :: r.orders, r.vfb, r.broke⟩

/-- Embeds `SlippageModel.simulate` (slippage.py lines 180-227): reset
the per-bar counter, return immediately on a zero-volume bar or a NaN
close price (yielding nothing and leaving every order untouched),
otherwise run the order loop from counter 0. -/
def simulate (proc : BarData → ℚ → Order → ProcResult)
    (ct : Order → ℚ → ℕ → Order) (d : BarData) (asset : ℕ)
    (orders : List Order) : Option SimOutput :=
  if d.volume asset = 0 then some ⟨[], orders, 0, false⟩
  else
    match d.close asset with
    | none => some ⟨[], orders, 0, false⟩
    | some price => simLoop (proc d) (fun o => ct o price d.dt) d.dt orders 0

/-- Embeds `pandas.Series.mean` for the fetched history values. -/
def listMean (l : List ℚ) : ℚ :=
  l.sum / l.length

/-- Embeds `pandas.Series.pct_change` after its leading NaN entry has
been dropped (the subsequent `std` skips NaN): successive relative
changes of the series. -/
def pctChangeTail : ℚ → List ℚ → List ℚ
  | _, [] => []
  | prev, y :: ys => (y - prev) / prev :: pctChangeTail y ys

/-- Embeds `pandas.Series.pct_change` on a whole series (the leading
NaN entry dropped). -/
def pctChange : List ℚ → List ℚ
  | [] => []
  | x :: xs => pctChangeTail x xs

/-- Embeds `pandas.Series.std` (sample standard deviation, `ddof=1`)
with `sqrtFn` standing for the square root. -/
def sampleStd (sqrtFn : ℚ → ℚ) (l : List ℚ) : ℚ :=
  let m := listMean l
  sqrtFn ((l.map fun x => (x - m) ^ 2).sum / ((l.length : ℚ) - 1))

/-- Modelled from the spec: the trailing-window cache
(`zipline/utils/cache.py` is not part of the two source files).  Entries
are keyed by (asset, session); writing an asset's entry supersedes any
previous entry for that asset. -/
abbrev WindowCache := List (ℕ × ℕ × (ℚ × ℚ))

/-- Modelled from the spec: cache lookup, a hit only on the exact
(asset, session) key. -/
def cacheGet (c : WindowCache) (asset session : ℕ) : Option (ℚ × ℚ) :=
  (c.find? fun e => e.1 == asset && e.2.1 == session).map fun e => e.2.2

/-- Modelled from the spec: cache write, superseding (not merging) the
asset's previous entry. -/
def cacheSet (c : WindowCache) (asset session : ℕ) (v : ℚ × ℚ) : WindowCache :=
  (asset, session, v) :: c.filter fun e => e.1 ≠ asset

/-- Modelled from the spec: the daily-history collaborator backing
`_get_window_data` — `current_session` and
`history(asset, field, barCount, frequency)` for the volume and close
fields, keyed by asset, session and requested bar count. -/
structure WData where
  currentSession : ℕ
  volHist : ℕ → ℕ → ℕ → List ℚ
  closeHist : ℕ → ℕ → ℕ → List ℚ

/-- Embeds `WithWindowData._get_window_data` (slippage.py lines
388-418): on a cache hit for (asset, current session) return the stored
pair with no fetch; on a miss, fetch `window_length + 1` daily bars of
volume and close, drop the most recent bar (`[:-1]`), store and return
`(mean volume, std of pct changes × sqrt 252)`.  The third component of
the result counts history fetches performed by this call (0 on a hit,
1 on a miss). -/
def getWindowData (sqrtFn : ℚ → ℚ) (data : WData) (cache : WindowCache)
    (asset windowLength : ℕ) : (ℚ × ℚ) × WindowCache × ℕ :=
  match cacheGet cache asset data.currentSession with
  | some v => (v, cache, 0)
  | none =>
    let volumeHistory := data.volHist asset data.currentSession (windowLength + 1)
    let closeHistory := data.closeHist asset data.currentSession (windowLength + 1)
    let values : ℚ × ℚ :=
      (listMean volumeHistory.dropLast,
       sampleStd sqrtFn (pctChange closeHistory.dropLast) * sqrtFn 252)
    (values, cacheSet cache asset data.currentSession values, 1)

/-- Claim C1 (code bug): commission additivity fails for sell orders.
A sell of 10 units under `PerShare(cost=1, min_trade_cost=0)`, filled by
two transactions of −5 units each with the caller advancing `filled` and
`commission` after each call, charges 5 then −5 (sum 0), while the
single-shot charge for the full −10-unit fill is 10.  The additivity the
spec states is broken because `PerUnit._calculate` computes
`order.filled * cost_per_unit` without taking the absolute value. -/
theorem perShare_sell_additivity_breaks :
    runCommissions (PerShare.calculate 1 (some 0)) ⟨0, -10, 0, 0, none, true⟩
        [⟨0, 0, -5, 10⟩, ⟨0, 1, -5, 10⟩] = 0
    ∧ PerShare.calculate 1 (some 0) ⟨0, -10, 0, 0, none, true⟩ ⟨0, 0, -10, 10⟩ = 10
    ∧ PerShare.calculate 1 (some 0) ⟨0, -10, 0, 0, none, true⟩ ⟨0, 0, -5, 10⟩ = 5
    ∧ PerShare.calculate 1 (some 0) ⟨0, -10, -5, 5, none, true⟩ ⟨0, 1, -5, 10⟩ = -5 := by
  with_unfolding_all decide

/-- Claim C3 (code bug): `calculate` can return a negative charge.  For
`PerShare(cost=1, min_trade_cost=0)` and a sell order of −10 units whose
first −5-unit transaction was charged 5 (so `filled = −5`,
`commission = 5`, satisfying the order invariants), the second −5-unit
transaction is charged −5 < 0, because the signed `order.filled` drags
the per-unit running total below the commission already paid. -/
theorem perUnit_negative_charge :
    PerShare.calculate 1 (some 0) ⟨0, -10, 0, 0, none, true⟩ ⟨0, 0, -5, 10⟩ = 5
    ∧ PerShare.calculate 1 (some 0) ⟨0, -10, -5, 5, none, true⟩ ⟨0, 1, -5, 10⟩ = -5
    ∧ PerShare.calculate 1 (some 0) ⟨0, -10, -5, 5, none, true⟩ ⟨0, 1, -5, 10⟩ < 0 := by
  with_unfolding_all decide

/-- Claim C2 (counterexample): the Fixed Spread model's execution volume
is `order.amount`, the full requested amount, not the open amount.  For
an order of 10 requested with 5 already filled, the returned volume is
10 while the open amount is 5. -/
theorem fixedSlippage_volume_not_open_amount :
    (FixedSlippageBase.processOrder (2/100) 100 ⟨0, 10, 5, 0, none, true⟩).2 = 10
    ∧ Order.openAmount ⟨0, 10, 5, 0, none, true⟩ = 5
    ∧ (FixedSlippageBase.processOrder (2/100) 100 ⟨0, 10, 5, 0, none, true⟩).2
        ≠ Order.openAmount ⟨0, 10, 5, 0, none, true⟩ := by
  with_unfolding_all decide

/-- Claim C2 (amended): the Fixed Spread model fills a buy at
`close + spread/2` and a sell at `close − spread/2`, always for the
order's full requested amount `order.amount`; the requested amount
coincides with the open amount exactly when nothing has been filled
yet. -/
theorem fixedSlippage_spread_symmetry (spread price : ℚ) (o : Order) :
    (0 < o.amount →
      FixedSlippageBase.processOrder spread price o = (price + spread / 2, o.amount))
    ∧ (o.amount < 0 →
      FixedSlippageBase.processOrder spread price o = (price - spread / 2, o.amount))
    ∧ (o.filled = 0 →
      (FixedSlippageBase.processOrder spread price o).2 = o.openAmount) := by
  refine ⟨fun h => ?_, fun h => ?_, fun h => ?_⟩
  · simp [FixedSlippageBase.processOrder, Order.direction, not_lt.mpr h.le]
  · simp only [FixedSlippageBase.processOrder, Order.direction, if_pos h, Prod.mk.injEq]
    constructor
    · ring
    · trivial
  · simp [FixedSlippageBase.processOrder, Order.openAmount, h]

/-- Witness for `fixedSlippage_spread_symmetry`: with spread 0.02 a buy
order for 10 shares fills at close 100 + 0.01 for the full 10 shares. -/
theorem fixedSlippage_spread_symmetry_w :
    FixedSlippageBase.processOrder (2/100) 100 ⟨0, 10, 0, 0, none, true⟩
      = (100 + (2/100) / 2, (10:ℚ)) :=
  (fixedSlippage_spread_symmetry (2/100) 100 ⟨0, 10, 0, 0, none, true⟩).1 (by norm_num)

set_option maxRecDepth 10000 in
/-- Claim C6 (counterexample): the veto is skipped for a limit price of
0, because `if order.limit:` is falsy for `0`.  A buy order with limit
price 0 and candidate impacted price 100.1 > 0 is filled, not vetoed. -/
theorem limit_zero_not_vetoed :
    VolumeSlippage.processOrder (1/4) (1/10)
        ⟨fun _ => 100, fun _ => some 100, fun _ => 0, fun _ => 0, 0⟩ 0
        ⟨0, 10, 0, 0, some 0, true⟩ = .pair (some (1001/10, 10))
    ∧ (0:ℚ) < 1001/10
    ∧ VolumeSlippage.processOrder (1/4) (1/10)
        ⟨fun _ => 100, fun _ => some 100, fun _ => 0, fun _ => 0, 0⟩ 0
        ⟨0, 10, 0, 0, some 0, true⟩ ≠ .pair none := by
  with_unfolding_all decide

/-- Claim C6 (amended): for every order carrying a nonzero limit price
L, a buy's candidate price is worse exactly when it is strictly above L
and a sell's exactly when it is strictly below L (so a price equal to L
or on the favorable side is not vetoed), and any fill returned by
`VolumeSlippage.process_order` has a fill price that is not worse than
the order's limit. -/
theorem limit_price_veto :
    (∀ (fillPrice l : ℚ) (o : Order), o.limit = some l → l ≠ 0 → 0 < o.amount →
      (fill_price_worse_than_limit_price fillPrice o = true ↔ l < fillPrice))
    ∧ (∀ (fillPrice l : ℚ) (o : Order), o.limit = some l → l ≠ 0 → o.amount < 0 →
      (fill_price_worse_than_limit_price fillPrice o = true ↔ fillPrice < l))
    ∧ (∀ (volumeLimit priceImpact vfb p v : ℚ) (d : BarData) (o : Order),
        VolumeSlippage.processOrder volumeLimit priceImpact d vfb o = .pair (some (p, v)) →
        fill_price_worse_than_limit_price p o = false) := by
  refine ⟨?_, ?_, ?_⟩
  · intro fillPrice l o hl hl0 hbuy
    simp [fill_price_worse_than_limit_price, hl, hl0, Order.direction, not_lt.mpr hbuy.le]
  · intro fillPrice l o hl hl0 hsell
    simp [fill_price_worse_than_limit_price, hl, hl0, Order.direction, hsell]
  · intro volumeLimit priceImpact vfb p v d o h
    simp only [VolumeSlippage.processOrder] at h
    split at h
    · exact absurd h (by simp)
    · split at h
      · exact absurd h (by simp)
      · split at h
        · exact absurd h (by simp)
        · split at h
          · exact absurd h (by simp)
          · rename_i hworse
            obtain ⟨hp, -⟩ := Prod.mk.injEq .. ▸ (Option.some.injEq .. ▸
              (ProcResult.pair.injEq .. ▸ h))
            rw [← hp]
            exact Bool.not_eq_true _ ▸ hworse

/-- Witness for `limit_price_veto`: a buy order with limit 100 and
candidate impacted price 100.01 is vetoed (the spec's own example). -/
theorem limit_price_veto_w :
    fill_price_worse_than_limit_price (10001/100) ⟨0, 10, 0, 0, some 100, true⟩ = true :=
  (limit_price_veto.1 (10001/100) 100 ⟨0, 10, 0, 0, some 100, true⟩ rfl (by norm_num)
    (by norm_num)).mpr (by norm_num)

/-- The magnitude of a `copysign` result is the magnitude of its first
argument. -/
theorem copysign_abs (x y : ℚ) : |copysign x y| = |x| := by
  unfold copysign
  split
  · rw [abs_neg, abs_abs]
  · rw [abs_abs]

/-- Claim C8: a bar with zero volume or an undefined (NaN) close price
produces zero (order, transaction) pairs and leaves every order's state
unchanged, for every slippage model and every trigger-evaluation
collaborator — in particular the outcome is independent of trigger
evaluation, which can therefore not have been consulted. -/
theorem zero_volume_or_nan_bar_no_effect
    (proc : BarData → ℚ → Order → ProcResult) (ct : Order → ℚ → ℕ → Order)
    (d : BarData) (asset : ℕ) (orders : List Order)
    (h : d.volume asset = 0 ∨ d.close asset = none) :
    simulate proc ct d asset orders = some ⟨[], orders, 0, false⟩ := by
  unfold simulate
  rcases h with h | h
  · rw [if_pos h]
  · by_cases hv : d.volume asset = 0
    · rw [if_pos hv]
    · rw [if_neg hv, h]

/-- Witness for `zero_volume_or_nan_bar_no_effect`: a zero-volume bar
with one open order yields no pairs and returns the order untouched. -/
theorem zero_volume_or_nan_bar_no_effect_w :
    simulate (fun _ _ _ => .exceeded) (fun o _ _ => o)
      ⟨fun _ => 0, fun _ => some 1, fun _ => 1, fun _ => 1, 0⟩ 0
      [⟨0, 10, 0, 0, none, true⟩] = some ⟨[], [⟨0, 10, 0, 0, none, true⟩], 0, false⟩ :=
  zero_volume_or_nan_bar_no_effect _ _ _ _ _ (Or.inl rfl)

/-- Claim C5 (amended): each single fill of the Futures Market Impact
model is bounded by `min(bar_volume × volume_limit, |open_amount|)`, but
the model keeps no shared per-bar counter, so the aggregate across
several orders can exceed `volume_limit × bar_volume` (see the
counterexample theorem). -/
theorem futures_market_impact_fill_bound
    (volumeLimit eta meanVolume volatility : ℚ) (sqrtFn : ℚ → ℚ)
    (d : BarData) (o : Order) (p v : ℚ)
    (hvl : 0 ≤ volumeLimit) (hvol : 0 ≤ d.volume o.asset)
    (h : FuturesMarketImpact.processOrder volumeLimit eta meanVolume volatility sqrtFn d o
          = .pair (some (p, v))) :
    |v| ≤ d.volume o.asset * volumeLimit ∧ |v| ≤ |o.openAmount| := by
  simp only [FuturesMarketImpact.processOrder] at h
  split at h
  · exact absurd h (by simp)
  · split at h
    · exact absurd h (by simp)
    · split at h
      · exact absurd h (by simp)
      · obtain ⟨-, hv⟩ := Prod.mk.injEq .. ▸ (Option.some.injEq .. ▸
          (ProcResult.pair.injEq .. ▸ h))
        rw [← hv, copysign_abs]
        have h1 : 0 ≤ min (d.volume o.asset * volumeLimit) |o.openAmount| :=
          le_min (mul_nonneg hvol hvl) (abs_nonneg _)
        rw [abs_of_nonneg h1]
        exact ⟨min_le_left _ _, min_le_right _ _⟩

/-- Witness for `futures_market_impact_fill_bound`: with bar volume 100
and volume limit 1/2, a fill of 50 contracts against an open amount of
60 respects both bounds. -/
theorem futures_market_impact_fill_bound_w :
    |(50:ℚ)| ≤ 100 * (1/2) ∧ |(50:ℚ)| ≤ |Order.openAmount ⟨0, 60, 0, 0, none, true⟩| :=
  futures_market_impact_fill_bound (1/2) 1 1 1 (fun _ => 0)
    ⟨fun _ => 100, fun _ => some 100, fun _ => 100, fun _ => 100, 0⟩
    ⟨0, 60, 0, 0, none, true⟩ 100 50 (by norm_num) (by norm_num)
    (by with_unfolding_all decide)

set_option maxRecDepth 40000 in
/-- Claim C5 (counterexample): two orders of 60 contracts each on a bar
of volume 100 with volume limit 1/2 both fill 50 contracts, so the
aggregate filled volume for the asset in this bar is 100, exceeding the
claimed shared ceiling `volume_limit × bar_volume = 50`. -/
theorem futures_market_impact_no_shared_cap :
    simulate (fun d _ o => FuturesMarketImpact.processOrder (1/2) 1 1 1 (fun _ => 0) d o)
      (fun o _ _ => o)
      ⟨fun _ => 100, fun _ => some 100, fun _ => 100, fun _ => 100, 0⟩ 0
      [⟨0, 60, 0, 0, none, true⟩, ⟨0, 60, 0, 0, none, true⟩]
    = some ⟨[(⟨0, 60, 0, 0, none, true⟩, ⟨0, 0, 50, 100⟩),
             (⟨0, 60, 0, 0, none, true⟩, ⟨0, 0, 50, 100⟩)],
            [⟨0, 60, 0, 0, none, true⟩, ⟨0, 60, 0, 0, none, true⟩], 100, false⟩
    ∧ ¬ ((100:ℚ) ≤ (1/2) * 100) := by
  with_unfolding_all decide

/-- When the bar's close price for the order's asset is present,
`VolumeSlippage.process_order` never takes the bare `return` branch. -/
theorem vs_processOrder_ne_bareNone (volumeLimit priceImpact vfb : ℚ)
    (d : BarData) (o : Order) (h : d.close o.asset ≠ none) :
    VolumeSlippage.processOrder volumeLimit priceImpact d vfb o ≠ .bareNone := by
  cases hcl : d.close o.asset with
  | none => exact absurd hcl h
  | some price =>
    simp only [VolumeSlippage.processOrder, hcl]
    split
    · simp
    · split
      · simp
      · split
        · simp
        · simp

/-- The `simulate` order loop over `VolumeSlippage.process_order` never
crashes unpacking a bare `None`, provided every order (also after
trigger evaluation) is on an asset whose close price is present. -/
theorem simLoop_vs_ne_none (volumeLimit priceImpact : ℚ) (d : BarData) (asset : ℕ)
    (ct1 : Order → Order) (hct : ∀ o, (ct1 o).asset = o.asset) (dtv : ℕ) (price : ℚ)
    (hcl : d.close asset = some price) :
    ∀ (os : List Order) (v : ℚ), (∀ o ∈ os, o.asset = asset) →
      simLoop (VolumeSlippage.processOrder volumeLimit priceImpact d) ct1 dtv os v ≠ none := by
  intro os
  induction os with
  | nil => intro v _; simp [simLoop]
  | cons o os ih =>
    intro v hmem
    have hosm : ∀ x ∈ os, x.asset = asset := fun x hx => hmem x (List.mem_cons_of_mem _ hx)
    have hclo : d.close (ct1 o).asset ≠ none := by
      rw [hct o, hmem o (List.mem_cons_self _ _), hcl]
      simp
    simp only [simLoop]
    split
    · simp only [ne_eq, Option.map_eq_none']
      exact ih v hosm
    · split
      · simp only [ne_eq, Option.map_eq_none']
        exact ih v hosm
      · cases hp : VolumeSlippage.processOrder volumeLimit priceImpact d v (ct1 o) with
        | exceeded => simp [hp]
        | bareNone => exact absurd hp (vs_processOrder_ne_bareNone _ _ _ _ _ hclo)
        | pair pv =>
          cases pv with
          | none =>
            simp only [hp, ne_eq, Option.map_eq_none']
            exact ih v hosm
          | some p =>
            simp only [hp, ne_eq, Option.map_eq_none']
            exact ih _ hosm

/-- Claim C10: with a present close price, `VolumeSlippage.process_order`
either raises `LiquidityExceeded` or returns a 2-tuple, never a bare
`None`; and driven through `simulate` (which returns early on a missing
close price before calling `process_order`), the two-element unpacking
never fails, for any orders on the simulated asset and any
asset-preserving trigger evaluator. -/
theorem volume_slippage_unpack_safe :
    (∀ (volumeLimit priceImpact vfb : ℚ) (d : BarData) (o : Order),
      d.close o.asset ≠ none →
      VolumeSlippage.processOrder volumeLimit priceImpact d vfb o ≠ .bareNone)
    ∧ (∀ (volumeLimit priceImpact : ℚ) (ct : Order → ℚ → ℕ → Order) (d : BarData)
        (asset : ℕ) (orders : List Order),
        (∀ o ∈ orders, o.asset = asset) →
        (∀ o p t, (ct o p t).asset = o.asset) →
        simulate (VolumeSlippage.processOrder volumeLimit priceImpact) ct d asset orders
          ≠ none) := by
  refine ⟨vs_processOrder_ne_bareNone, ?_⟩
  intro volumeLimit priceImpact ct d asset orders hmem hct
  unfold simulate
  by_cases hv : d.volume asset = 0
  · simp [hv]
  · rw [if_neg hv]
    cases hcl : d.close asset with
    | none => simp
    | some price =>
      exact simLoop_vs_ne_none volumeLimit priceImpact d asset _
        (fun o => hct o price d.dt) d.dt price hcl orders 0 hmem

/-- Witness for `volume_slippage_unpack_safe`: a concrete one-order run
through `simulate` does not crash. -/
theorem volume_slippage_unpack_safe_w :
    simulate (VolumeSlippage.processOrder (1/40) (1/10)) (fun o _ _ => o)
      ⟨fun _ => 1000, fun _ => some 100, fun _ => 0, fun _ => 0, 0⟩ 0
      [⟨0, 10, 0, 0, none, true⟩] ≠ none :=
  volume_slippage_unpack_safe.2 (1/40) (1/10) (fun o _ _ => o)
    ⟨fun _ => 1000, fun _ => some 100, fun _ => 0, fun _ => 0, 0⟩ 0
    [⟨0, 10, 0, 0, none, true⟩]
    (by intro o ho; simp at ho; rw [ho])
    (fun o p t => rfl)

/-- Running the order loop over `pre ++ rest` when the loop over `pre`
finishes without the `LiquidityExceeded` break: the pairs and final
orders of `pre` are produced unchanged, followed by whatever the loop
produces over `rest` starting from `pre`'s final counter. -/
theorem simLoop_append (proc : ℚ → Order → ProcResult) (ct1 : Order → Order) (dtv : ℕ) :
    ∀ (pre : List Order) (v : ℚ) (out : SimOutput),
      simLoop proc ct1 dtv pre v = some out → out.broke = false →
      ∀ rest, simLoop proc ct1 dtv (pre ++ rest) v =
        (simLoop proc ct1 dtv rest out.vfb).map fun r =>
          ⟨out.pairs ++ r.pairs, out.orders ++ r.orders, r.vfb, r.broke⟩ := by
  intro pre
  induction pre with
  | nil =>
    intro v out h hb rest
    simp only [simLoop] at h
    obtain rfl := Option.some.inj h
    simp only [List.nil_append]
    cases simLoop proc ct1 dtv rest v <;> simp
  | cons o pre ih =>
    intro v out h hb rest
    rw [List.cons_append]
    simp only [simLoop] at h ⊢
    by_cases h0 : o.openAmount = 0
    · rw [if_pos h0] at h ⊢
      obtain ⟨r, hr, hfr⟩ := Option.map_eq_some'.mp h
      have hrb : r.broke = false := by rw [← hfr] at hb; exact hb
      have hout : out = ⟨r.pairs, o :: r.orders, r.vfb, r.broke⟩ := hfr.symm
      rw [ih v r hr hrb rest, hout]
      cases simLoop proc ct1 dtv rest r.vfb <;> simp
    · rw [if_neg h0] at h ⊢
      by_cases ht : (ct1 o).triggered = false
      · rw [if_pos ht] at h ⊢
        obtain ⟨r, hr, hfr⟩ := Option.map_eq_some'.mp h
        have hrb : r.broke = false := by rw [← hfr] at hb; exact hb
        have hout : out = ⟨r.pairs, ct1 o :: r.orders, r.vfb, r.broke⟩ := hfr.symm
        rw [ih v r hr hrb rest, hout]
        cases simLoop proc ct1 dtv rest r.vfb <;> simp
      · rw [if_neg ht] at h ⊢
        revert h
        cases hp : proc v (ct1 o) with
        | exceeded =>
          intro h
          obtain rfl := Option.some.inj h
          exact absurd hb (by simp)
        | bareNone =>
          intro h
          exact absurd h (by simp)
        | pair pv =>
          cases pv with
          | none =>
            intro h
            obtain ⟨r, hr, hfr⟩ := Option.map_eq_some'.mp h
            have hrb : r.broke = false := by rw [← hfr] at hb; exact hb
            have hout : out = ⟨r.pairs, ct1 o :: r.orders, r.vfb, r.broke⟩ := hfr.symm
            rw [ih v r hr hrb rest, hout]
            cases simLoop proc ct1 dtv rest r.vfb <;> simp
          | some pv =>
            intro h
            obtain ⟨r, hr, hfr⟩ := Option.map_eq_some'.mp h
            have hrb : r.broke = false := by rw [← hfr] at hb; exact hb
            have hout : out = ⟨(ct1 o, createTransaction (ct1 o) dtv pv.1 pv.2) :: r.pairs,
                ct1 o :: r.orders, r.vfb, r.broke⟩ := hfr.symm
            have hiw := ih _ r hr hrb rest
            rw [hout]
            show (simLoop proc ct1 dtv (pre ++ rest)
                    (v + |(createTransaction (ct1 o) dtv pv.1 pv.2).amount|)).map
                  (fun x => SimOutput.mk
                    ((ct1 o, createTransaction (ct1 o) dtv pv.1 pv.2) :: x.pairs)
                    (ct1 o :: x.orders) x.vfb x.broke) =
                (simLoop proc ct1 dtv rest r.vfb).map fun x =>
                  ⟨((ct1 o, createTransaction (ct1 o) dtv pv.1 pv.2) :: r.pairs) ++ x.pairs,
                   (ct1 o :: r.orders) ++ x.orders, x.vfb, x.broke⟩
            rw [hiw]
            cases simLoop proc ct1 dtv rest r.vfb <;> simp

/-- Claim C7: when `process_order` raises `LiquidityExceeded` for the
order at position i (here: the first order after `pre`), `simulate`
stops — it emits the pairs produced over `pre` unchanged, nothing for
that order or any later order, and returns normally (the exception is
swallowed by the loop, never propagated). -/
theorem simulate_stops_on_liquidity_exceeded
    (proc : BarData → ℚ → Order → ProcResult) (ct : Order → ℚ → ℕ → Order)
    (d : BarData) (asset : ℕ) (price : ℚ) (pre post : List Order) (o : Order)
    (out : SimOutput)
    (hvol : ¬ d.volume asset = 0) (hcl : d.close asset = some price)
    (hpre : simulate proc ct d asset pre = some out) (hnb : out.broke = false)
    (ho : ¬ o.openAmount = 0) (ht : (ct o price d.dt).triggered = true)
    (hexc : proc d out.vfb (ct o price d.dt) = .exceeded) :
    simulate proc ct d asset (pre ++ o :: post) =
      some ⟨out.pairs, out.orders ++ (ct o price d.dt) :: post, out.vfb, true⟩ := by
  unfold simulate at hpre ⊢
  rw [if_neg hvol, hcl] at hpre ⊢
  have hpre2 : simLoop (proc d) (fun x => ct x price d.dt) d.dt pre 0 = some out := hpre
  show simLoop (proc d) (fun x => ct x price d.dt) d.dt (pre ++ o :: post) 0 =
    some ⟨out.pairs, out.orders ++ (ct o price d.dt) :: post, out.vfb, true⟩
  rw [simLoop_append _ _ _ pre 0 out hpre2 hnb (o :: post)]
  simp only [simLoop, if_neg ho, ht, hexc]
  simp

/-- Witness for `simulate_stops_on_liquidity_exceeded`: with a model
that immediately raises `LiquidityExceeded`, one open triggered order
yields no pairs and `simulate` still returns normally. -/
theorem simulate_stops_on_liquidity_exceeded_w :
    simulate (fun _ _ _ => .exceeded) (fun o _ _ => o)
      ⟨fun _ => 5, fun _ => some 1, fun _ => 1, fun _ => 1, 0⟩ 0
      [⟨0, 10, 0, 0, none, true⟩]
    = some ⟨[], [⟨0, 10, 0, 0, none, true⟩], 0, true⟩ :=
  simulate_stops_on_liquidity_exceeded (fun _ _ _ => .exceeded) (fun o _ _ => o)
    ⟨fun _ => 5, fun _ => some 1, fun _ => 1, fun _ => 1, 0⟩ 0 1 [] []
    ⟨0, 10, 0, 0, none, true⟩ ⟨[], [], 0, false⟩
    (by norm_num) rfl (by with_unfolding_all decide) rfl
    (by norm_num [Order.openAmount]) rfl rfl

/-- Any fill produced by `VolumeSlippage.process_order` fits in the
remaining capacity: the counter plus the fill's magnitude stays within
`volume_limit × bar_volume`. -/
theorem vs_fill_le (volumeLimit priceImpact : ℚ) (d : BarData) (vfb : ℚ) (o : Order)
    (p a : ℚ)
    (h : VolumeSlippage.processOrder volumeLimit priceImpact d vfb o = .pair (some (p, a))) :
    vfb + |a| ≤ volumeLimit * d.volume o.asset := by
  simp only [VolumeSlippage.processOrder] at h
  split at h
  · exact absurd h (by simp)
  · split at h
    · exact absurd h (by simp)
    · rename_i hrem hcur
      split at h
      · exact absurd h (by simp)
      · split at h
        · exact absurd h (by simp)
        · obtain ⟨-, ha⟩ := Prod.mk.injEq .. ▸ (Option.some.injEq .. ▸
            (ProcResult.pair.injEq .. ▸ h))
          rw [← ha, copysign_abs]
          have h1 : (1:ℤ) ≤ ⌊min (volumeLimit * d.volume o.asset - vfb) |o.openAmount|⌋ :=
            not_lt.mp hcur
          have h2 : (0:ℚ) ≤
              ((⌊min (volumeLimit * d.volume o.asset - vfb) |o.openAmount|⌋ : ℤ) : ℚ) := by
            exact_mod_cast le_trans zero_le_one h1
          rw [abs_of_nonneg h2]
          have h3 : ((⌊min (volumeLimit * d.volume o.asset - vfb) |o.openAmount|⌋ : ℤ) : ℚ)
              ≤ volumeLimit * d.volume o.asset - vfb :=
            le_trans (Int.floor_le _) (min_le_left _ _)
          linarith

/-- Loop invariant for the Volume-Share model: if the counter starts
within the cap, it stays within the cap, and it advances by exactly the
sum of the emitted fills' magnitudes. -/
theorem simLoop_vs_cap (volumeLimit priceImpact : ℚ) (d : BarData) (asset : ℕ)
    (ct1 : Order → Order) (hct : ∀ o, (ct1 o).asset = o.asset) (dtv : ℕ) :
    ∀ (os : List Order) (v : ℚ) (out : SimOutput),
      (∀ o ∈ os, o.asset = asset) →
      v ≤ volumeLimit * d.volume asset →
      simLoop (VolumeSlippage.processOrder volumeLimit priceImpact d) ct1 dtv os v
        = some out →
      out.vfb ≤ volumeLimit * d.volume asset ∧
        out.vfb = v + (out.pairs.map fun pr => |pr.2.amount|).sum := by
  intro os
  induction os with
  | nil =>
    intro v out _ hv h
    obtain rfl := Option.some.inj h
    simpa using hv
  | cons o os ih =>
    intro v out hmem hv h
    have hosm : ∀ x ∈ os, x.asset = asset := fun x hx => hmem x (List.mem_cons_of_mem _ hx)
    simp only [simLoop] at h
    by_cases h0 : o.openAmount = 0
    · rw [if_pos h0] at h
      obtain ⟨r, hr, hfr⟩ := Option.map_eq_some'.mp h
      obtain ⟨hc, hs⟩ := ih v r hosm hv hr
      rw [← hfr]
      exact ⟨hc, hs⟩
    · rw [if_neg h0] at h
      by_cases ht : (ct1 o).triggered = false
      · rw [if_pos ht] at h
        obtain ⟨r, hr, hfr⟩ := Option.map_eq_some'.mp h
        obtain ⟨hc, hs⟩ := ih v r hosm hv hr
        rw [← hfr]
        exact ⟨hc, hs⟩
      · rw [if_neg ht] at h
        revert h
        cases hp : VolumeSlippage.processOrder volumeLimit priceImpact d v (ct1 o) with
        | exceeded =>
          intro h
          obtain rfl := Option.some.inj h
          exact ⟨hv, by simp⟩
        | bareNone =>
          intro h
          exact absurd h (by simp)
        | pair pv =>
          cases pv with
          | none =>
            intro h
            obtain ⟨r, hr, hfr⟩ := Option.map_eq_some'.mp h
            obtain ⟨hc, hs⟩ := ih v r hosm hv hr
            rw [← hfr]
            exact ⟨hc, hs⟩
          | some pv =>
            intro h
            obtain ⟨r, hr, hfr⟩ := Option.map_eq_some'.mp h
            have hfill : v + |pv.2| ≤ volumeLimit * d.volume asset := by
              have hb := vs_fill_le volumeLimit priceImpact d v (ct1 o) pv.1 pv.2 hp
              rwa [hct o, hmem o (List.mem_cons_self _ _)] at hb
            obtain ⟨hc, hs⟩ := ih (v + |pv.2|) r hosm hfill hr
            rw [← hfr]
            refine ⟨hc, ?_⟩
            show r.vfb = v +
              ((((ct1 o, createTransaction (ct1 o) dtv pv.1 pv.2) :: r.pairs).map
                fun pr => |pr.2.amount|).sum)
            rw [List.map_cons, List.sum_cons, hs]
            show (v + |pv.2|) + _ = v + (|pv.2| + _)
            ring

/-- Claim C4: (a) driven through `simulate`, the Volume-Share model's
aggregate filled volume across all orders on one asset in one bar never
exceeds `volume_limit × bar_volume`; (b) when remaining capacity is
below 1 unit, `process_order` raises `LiquidityExceeded` instead of
filling; (c) when capacity remains but the candidate fill floors to 0
units, the order gets no fill and the bar is not exhausted. -/
theorem volume_share_cap :
    (∀ (volumeLimit priceImpact : ℚ) (ct : Order → ℚ → ℕ → Order) (d : BarData)
        (asset : ℕ) (orders : List Order) (out : SimOutput),
      0 ≤ volumeLimit → 0 ≤ d.volume asset →
      (∀ o ∈ orders, o.asset = asset) →
      (∀ o p t, (ct o p t).asset = o.asset) →
      simulate (VolumeSlippage.processOrder volumeLimit priceImpact) ct d asset orders
        = some out →
      (out.pairs.map fun pr => |pr.2.amount|).sum ≤ volumeLimit * d.volume asset
        ∧ out.vfb ≤ volumeLimit * d.volume asset)
    ∧ (∀ (volumeLimit priceImpact vfb : ℚ) (d : BarData) (o : Order),
        volumeLimit * d.volume o.asset - vfb < 1 →
        VolumeSlippage.processOrder volumeLimit priceImpact d vfb o = .exceeded)
    ∧ (∀ (volumeLimit priceImpact vfb : ℚ) (d : BarData) (o : Order),
        ¬ volumeLimit * d.volume o.asset - vfb < 1 →
        ⌊min (volumeLimit * d.volume o.asset - vfb) |o.openAmount|⌋ < 1 →
        VolumeSlippage.processOrder volumeLimit priceImpact d vfb o = .pair none) := by
  refine ⟨?_, ?_, ?_⟩
  · intro vl pi ct d asset orders out hvl hvol hmem hct hsim
    unfold simulate at hsim
    by_cases hv : d.volume asset = 0
    · rw [if_pos hv] at hsim
      obtain rfl := Option.some.inj hsim
      constructor <;> simp [mul_nonneg hvl hvol]
    · rw [if_neg hv] at hsim
      cases hcl : d.close asset with
      | none =>
        rw [hcl] at hsim
        obtain rfl := Option.some.inj hsim
        constructor <;> simp [mul_nonneg hvl hvol]
      | some price =>
        rw [hcl] at hsim
        have hsim2 : simLoop (VolumeSlippage.processOrder vl pi d)
            (fun x => ct x price d.dt) d.dt orders 0 = some out := hsim
        obtain ⟨hc, hs⟩ := simLoop_vs_cap vl pi d asset (fun x => ct x price d.dt)
          (fun x => hct x price d.dt) d.dt orders 0 out hmem (mul_nonneg hvl hvol) hsim2
        have hs2 : (out.pairs.map fun pr => |pr.2.amount|).sum = out.vfb := by linarith
        exact ⟨by rw [hs2]; exact hc, hc⟩
  · intro vl pi vfb d o hrem
    simp only [VolumeSlippage.processOrder]
    rw [if_pos hrem]
  · intro vl pi vfb d o hrem hcur
    simp only [VolumeSlippage.processOrder]
    rw [if_neg hrem, if_pos hcur]

/-- Witness for `volume_share_cap`: with volume limit 0 nothing can ever
be filled, so the first order already raises `LiquidityExceeded`. -/
theorem volume_share_cap_w :
    VolumeSlippage.processOrder 0 (1/10)
      ⟨fun _ => 5, fun _ => some 1, fun _ => 1, fun _ => 1, 0⟩ 0 ⟨0, 10, 0, 0, none, true⟩
      = .exceeded :=
  volume_share_cap.2.1 0 (1/10) 0 ⟨fun _ => 5, fun _ => some 1, fun _ => 1, fun _ => 1, 0⟩
    ⟨0, 10, 0, 0, none, true⟩ (by norm_num)

/-- A freshly written cache entry is found by a lookup with the same
(asset, session) key. -/
theorem cacheGet_cacheSet_same (c : WindowCache) (asset session : ℕ) (v : ℚ × ℚ) :
    cacheGet (cacheSet c asset session v) asset session = some v := by
  unfold cacheGet cacheSet
  rw [List.find?_cons_of_pos]
  · rfl
  · simp

/-- After writing an entry for `asset` (which supersedes all of the
asset's previous entries), a lookup for the same asset under a different
session misses. -/
theorem cacheGet_cacheSet_ne (c : WindowCache) (asset s0 s1 : ℕ) (v : ℚ × ℚ)
    (h : s1 ≠ s0) : cacheGet (cacheSet c asset s0 v) asset s1 = none := by
  unfold cacheGet cacheSet
  rw [List.find?_cons_of_neg, List.find?_eq_none.mpr]
  · rfl
  · intro x hx
    have hx1 := (List.mem_filter.mp hx).2
    simp only [decide_eq_true_eq] at hx1
    simp only [Bool.and_eq_true, beq_iff_eq, not_and]
    intro h1
    exact absurd h1 hx1
  · simp only [Bool.and_eq_true, beq_iff_eq, not_and]
    intro _ h2
    exact absurd h2.symm h

/-- Claim C9: trailing-window cache correctness.  (1) After any call,
a second call with the same (asset, session) key returns the identical
pair, leaves the cache unchanged and performs no history fetch; (2) a
hit returns the stored pair with no fetch and no cache change; (3) after
a computing call, a call for a new session of the same asset performs
exactly one fresh fetch; (4) a computing call fetches exactly once, and
the pair it computes and stores is the mean of the first
`window_length` of the `window_length + 1` fetched volume values and the
sample standard deviation of percent changes of the first
`window_length` close values multiplied by sqrt 252. -/
theorem window_cache_correct :
    (∀ (sqrtFn : ℚ → ℚ) (data : WData) (cache : WindowCache) (asset wl : ℕ),
      getWindowData sqrtFn data ((getWindowData sqrtFn data cache asset wl).2.1) asset wl
        = ((getWindowData sqrtFn data cache asset wl).1,
           (getWindowData sqrtFn data cache asset wl).2.1, 0))
    ∧ (∀ (sqrtFn : ℚ → ℚ) (data : WData) (cache : WindowCache) (asset wl : ℕ) (v : ℚ × ℚ),
        cacheGet cache asset data.currentSession = some v →
        getWindowData sqrtFn data cache asset wl = (v, cache, 0))
    ∧ (∀ (sqrtFn : ℚ → ℚ) (d0 d1 : WData) (cache : WindowCache) (asset wl0 wl1 : ℕ),
        cacheGet cache asset d0.currentSession = none →
        d1.currentSession ≠ d0.currentSession →
        (getWindowData sqrtFn d1 ((getWindowData sqrtFn d0 cache asset wl0).2.1) asset
          wl1).2.2 = 1)
    ∧ (∀ (sqrtFn : ℚ → ℚ) (data : WData) (cache : WindowCache) (asset wl : ℕ),
        cacheGet cache asset data.currentSession = none →
        (data.volHist asset data.currentSession (wl + 1)).length = wl + 1 →
        (data.closeHist asset data.currentSession (wl + 1)).length = wl + 1 →
        (getWindowData sqrtFn data cache asset wl).1
            = (listMean ((data.volHist asset data.currentSession (wl + 1)).take wl),
               sampleStd sqrtFn
                 (pctChange ((data.closeHist asset data.currentSession (wl + 1)).take wl))
                 * sqrtFn 252)
          ∧ (getWindowData sqrtFn data cache asset wl).2.2 = 1) := by
  refine ⟨?_, ?_, ?_, ?_⟩
  · intro sqrtFn data cache asset wl
    cases hg : cacheGet cache asset data.currentSession with
    | some v => simp [getWindowData, hg]
    | none => simp [getWindowData, hg, cacheGet_cacheSet_same]
  · intro sqrtFn data cache asset wl v h
    simp [getWindowData, h]
  · intro sqrtFn d0 d1 cache asset wl0 wl1 h0 hne
    simp [getWindowData, h0, cacheGet_cacheSet_ne _ _ _ _ _ hne]
  · intro sqrtFn data cache asset wl h hlv hlc
    constructor
    · simp only [getWindowData, h]
      rw [List.dropLast_eq_take, List.dropLast_eq_take, hlv, hlc]
      simp
    · simp [getWindowData, h]

/-- Witness for `window_cache_correct`: a concrete computing call with
window length 2 fetches once and returns the mean of the first two of
three volume values and (with a zero square-root stand-in) a zero
volatility. -/
theorem window_cache_correct_w :
    (getWindowData (fun _ => 0) ⟨3, fun _ _ _ => [1, 2, 3], fun _ _ _ => [4, 5, 6]⟩ [] 7 2).1
        = (listMean ([(1:ℚ), 2, 3].take 2),
           sampleStd (fun _ => 0) (pctChange ([(4:ℚ), 5, 6].take 2)) * (fun _ => (0:ℚ)) 252)
      ∧ (getWindowData (fun _ => 0)
          ⟨3, fun _ _ _ => [1, 2, 3], fun _ _ _ => [4, 5, 6]⟩ [] 7 2).2.2 = 1 :=
  window_cache_correct.2.2.2 (fun _ => 0)
    ⟨3, fun _ _ _ => [1, 2, 3], fun _ _ _ => [4, 5, 6]⟩ [] 7 2 rfl rfl rfl
